import Mathlib

/-!
Verification of the DWARF location-expression decoder
(`elftools/dwarf/location_expr.py`): the opcode name/code tables, the
per-instance dispatch table, and the `process_expr` decode loop of
`GenericLocationExprVisitor`, shallowly embedded in Lean 4.

Modelling conventions:
* Python `dict`s are embedded as association lists together with
  `dictInsert` (assignment: replace the value in place if the key is
  present, append otherwise — Python insertion-order semantics) and
  `dictGet` (first, hence unique, match).  Key comparison is passed
  explicitly: `natEq` for integer keys, `sEq` for string keys.
* `sEq` decides Python string equality through the injective base-256
  encoding of the character sequence (`strKey`); on NUL-free strings —
  and every key in this development is a NUL-free ASCII mnemonic — it
  coincides with equality of the character sequences.
* The forward-only byte stream (a file-like object, or
  `cStringIO.StringIO` wrapped around a byte string) is embedded as the
  list of byte values remaining after the current position; `read(1)`
  is pattern matching on that list.
* The primitive codec (`struct_parse` applied to the `structs`
  Construct objects) and `bytelist2string` live in modules outside the
  analysed source file; they are modelled from the spec where the doc
  comment says so.
-/

set_option maxHeartbeats 4000000
set_option maxRecDepth 8000

/-- Base-256 encoding of a string's character sequence.  Injective on
NUL-free strings (every digit of a NUL-free string is in 1..255 for the
ASCII names used here, so no leading-zero collisions arise). -/
def strKey (s : String) : Nat :=
  s.data.foldl (fun h c => h * 256 + c.toNat) 0

/-- Python string equality, decided via `strKey` (see module comment). -/
def sEq (a b : String) : Bool := strKey a == strKey b

/-- Python integer equality on the natural numbers used as opcodes. -/
def natEq (a b : Nat) : Bool := a == b

/-- Python dict assignment `m[k] = v`: if `k` is already a key its value
is replaced in place (keeping the original insertion position),
otherwise the pair is appended at the end. -/
def dictInsert {κ α : Type} (eqk : κ → κ → Bool) (m : List (κ × α)) (k : κ) (v : α) :
    List (κ × α) :=
  match m with
  | [] => [(k, v)]
  | p :: rest =>
    match eqk p.1 k with
    | true => (k, v) :: rest
    | false => p :: dictInsert eqk rest k v

/-- Python dict lookup `m[k]`, as an `Option`: the first pair whose key
matches, if any (`none` models the `KeyError` case). -/
def dictGet {κ α : Type} (eqk : κ → κ → Bool) (m : List (κ × α)) (k : κ) : Option α :=
  match m with
  | [] => none
  | p :: rest =>
    match eqk p.1 k with
    | true => some p.2
    | false => dictGet eqk rest k

/-- The statically listed entries of `DW_OP_name2opcode`, in source order. -/
def DW_OP_static_pairs : List (String × Nat) :=
  [("DW_OP_addr", 0x03),
   ("DW_OP_deref", 0x06),
   ("DW_OP_const1u", 0x08),
   ("DW_OP_const1s", 0x09),
   ("DW_OP_const2u", 0x0a),
   ("DW_OP_const2s", 0x0b),
   ("DW_OP_const4u", 0x0c),
   ("DW_OP_const4s", 0x0d),
   ("DW_OP_const8u", 0x0e),
   ("DW_OP_const8s", 0x0f),
   ("DW_OP_constu", 0x10),
   ("DW_OP_consts", 0x11),
   ("DW_OP_dup", 0x12),
   ("DW_OP_drop", 0x13),
   ("DW_OP_over", 0x14),
   ("DW_OP_pick", 0x15),
   ("DW_OP_swap", 0x16),
   ("DW_OP_rot", 0x17),
   ("DW_OP_xderef", 0x18),
   ("DW_OP_abs", 0x19),
   ("DW_OP_and", 0x1a),
   ("DW_OP_div", 0x1b),
   ("DW_OP_minus", 0x1c),
   ("DW_OP_mod", 0x1d),
   ("DW_OP_mul", 0x1e),
   ("DW_OP_neg", 0x1f),
   ("DW_OP_not", 0x20),
   ("DW_OP_or", 0x21),
   ("DW_OP_plus", 0x22),
   ("DW_OP_plus_uconst", 0x23),
   ("DW_OP_shl", 0x24),
   ("DW_OP_shr", 0x25),
   ("DW_OP_shra", 0x26),
   ("DW_OP_xor", 0x27),
   ("DW_OP_bra", 0x28),
   ("DW_OP_eq", 0x29),
   ("DW_OP_ge", 0x2a),
   ("DW_OP_gt", 0x2b),
   ("DW_OP_le", 0x2c),
   ("DW_OP_lt", 0x2d),
   ("DW_OP_ne", 0x2e),
   ("DW_OP_skip", 0x2f),
   ("DW_OP_regx", 0x90),
   ("DW_OP_fbreg", 0x91),
   ("DW_OP_bregx", 0x92),
   ("DW_OP_piece", 0x93),
   ("DW_OP_deref_size", 0x94),
   ("DW_OP_xderef_size", 0x95),
   ("DW_OP_nop", 0x96),
   ("DW_OP_push_object_address", 0x97),
   ("DW_OP_call2", 0x98),
   ("DW_OP_call4", 0x99),
   ("DW_OP_call_ref", 0x9a),
   ("DW_OP_form_tls_address", 0x9b),
   ("DW_OP_call_frame_cfa", 0x9c),
   ("DW_OP_bit_piece", 0x9d),
   ("DW_OP_implicit_value", 0x9e),
   ("DW_OP_stack_value", 0x9f),
   ("DW_OP_GNU_push_tls_address", 0xe0),
   ("DW_OP_GNU_uninit", 0xf0),
   ("DW_OP_GNU_encoded_addr", 0xf1),
   ("DW_OP_GNU_implicit_pointer", 0xf2),
   ("DW_OP_GNU_entry_value", 0xf3),
   ("DW_OP_GNU_const_type", 0xf4),
   ("DW_OP_GNU_regval_type", 0xf5),
   ("DW_OP_GNU_deref_type", 0xf6),
   ("DW_OP_GNU_convert", 0xf7),
   ("DW_OP_GNU_reinterpret", 0xf9)]

/-- Source `_generate_dynamic_values(map, prefix, index_start, index_end,
value_start)`: for each index in the inclusive range `[index_start,
index_end]`, perform the dict assignment
`map['%s%s' % (prefix, index)] = value_start + index - index_start`.
A key already present is silently overwritten (plain dict assignment;
the source raises nothing here). -/
def _generate_dynamic_values (m : List (String × Nat)) (pfx : String)
    (index_start index_end value_start : Nat) : List (String × Nat) :=
  (List.range (index_end + 1 - index_start)).foldl
    (fun acc k => dictInsert sEq acc (pfx ++ toString (index_start + k)) (value_start + k))
    m

/-- Table `DW_OP_name2opcode`: the static listing extended by the three
dynamically generated families (`DW_OP_lit0..31` from 0x30,
`DW_OP_reg0..31` from 0x50, `DW_OP_breg0..31` from 0x70). -/
def DW_OP_name2opcode : List (String × Nat) :=
  _generate_dynamic_values
    (_generate_dynamic_values
      (_generate_dynamic_values DW_OP_static_pairs "DW_OP_lit" 0 31 0x30)
      "DW_OP_reg" 0 31 0x50)
    "DW_OP_breg" 0 31 0x70

/-- Table `DW_OP_opcode2name = dict((v, k) for k, v in DW_OP_name2opcode.iteritems())`. -/
def DW_OP_opcode2name : List (Nat × String) :=
  DW_OP_name2opcode.foldl (fun acc p => dictInsert natEq acc p.2 p.1) []

/-- The caller-supplied codec configuration (`structs` in the source):
the target address width in bytes. -/
structure DwarfStructs where
  address_size : Nat

/-- The Construct field objects of `self.structs` that
`_init_dispatch_table` passes to `_make_visitor_for_struct`. -/
inductive StructKind where
  | target_addr
  | uint8
  | int8
  | uint16
  | int16
  | uint32
  | int32
  | uint64
  | int64
  | uleb128
  | sleb128
deriving DecidableEq, BEq

/-- Little-endian value of a byte list (least significant byte first). -/
def leValue : List Nat → Nat
  | [] => 0
  | b :: rest => b + 256 * leValue rest

/-- Modelled from the spec: the primitive codec's fixed-width integer
decoder (`struct_parse` on a fixed-width Construct field, absent from
the analysed source).  Per spec §4.3/§6 it consumes exactly `width`
bytes and yields one value; reading past the end of input is an
operand-underrun error (`none`).  The value layout (little-endian,
two's complement for signed fields) is the codec's concern and does not
affect any claim. -/
def parseFixed (width : Nat) (signed : Bool) (l : List Nat) : Option (Int × List Nat) :=
  if width ≤ l.length then
    some (if signed = true ∧ 2 ^ (8 * width - 1) ≤ leValue (l.take width) then
            (leValue (l.take width) : Int) - 2 ^ (8 * width)
          else (leValue (l.take width) : Int),
          l.drop width)
  else none

/-- Modelled from the spec: the primitive codec's unsigned base-128
(ULEB128) decoder.  Each byte contributes 7 value bits, least
significant group first; a clear top bit ends the value; running out of
bytes mid-value is an underrun (`none`). -/
def parseULEB : List Nat → Option (Nat × List Nat)
  | [] => none
  | b :: rest =>
    if b < 128 then some (b, rest)
    else
      match parseULEB rest with
      | some (v, r) => some (b % 128 + 128 * v, r)
      | none => none

/-- Modelled from the spec: the primitive codec's signed base-128
(SLEB128) decoder.  Same continuation-bit convention as `parseULEB`,
with the final group sign-extended. -/
def parseSLEB : List Nat → Option (Int × List Nat)
  | [] => none
  | b :: rest =>
    if b < 128 then
      some (if b < 64 then (b : Int) else (b : Int) - 128, rest)
    else
      match parseSLEB rest with
      | some (v, r) => some ((b % 128 : Nat) + 128 * v, r)
      | none => none

/-- Modelled from the spec: `struct_parse(struct, self.stream)` — parse
one value of the given field kind from the remaining bytes, advancing
past exactly the bytes consumed. -/
def parseStruct (structs : DwarfStructs) : StructKind → List Nat → Option (Int × List Nat)
  | .target_addr => parseFixed structs.address_size false
  | .uint8 => parseFixed 1 false
  | .int8 => parseFixed 1 true
  | .uint16 => parseFixed 2 false
  | .int16 => parseFixed 2 true
  | .uint32 => parseFixed 4 false
  | .int32 => parseFixed 4 true
  | .uint64 => parseFixed 8 false
  | .int64 => parseFixed 8 true
  | .uleb128 => fun l =>
      match parseULEB l with
      | some (v, r) => some ((v : Int), r)
      | none => none
  | .sleb128 => parseSLEB

/-- A specifically bound visitor in `_dispatch_table`:
`_visit_OP_with_no_args` (sets `_cur_args` to `[]`, consumes nothing)
or a `_make_visitor_for_struct` closure (parses one value of the given
field kind, sets `_cur_args` to that single value). -/
inductive OperandRule where
  | noArgs
  | withStruct (k : StructKind)
deriving DecidableEq, BEq

/-- The `add(opcode_name, func)` calls of `_init_dispatch_table`, in
source order: the no-argument loop, the 15 single-struct opcodes, then
for each `i` in 0..31 the `DW_OP_lit%s`, `DW_OP_reg%s` (no arguments)
and `DW_OP_breg%s` (one SLEB128 argument) entries. -/
def opcode_visitor_specs : List (String × OperandRule) :=
  [("DW_OP_deref", OperandRule.noArgs),
   ("DW_OP_dup", OperandRule.noArgs),
   ("DW_OP_drop", OperandRule.noArgs),
   ("DW_OP_over", OperandRule.noArgs),
   ("DW_OP_swap", OperandRule.noArgs),
   ("DW_OP_rot", OperandRule.noArgs),
   ("DW_OP_xderef", OperandRule.noArgs),
   ("DW_OP_abs", OperandRule.noArgs),
   ("DW_OP_and", OperandRule.noArgs),
   ("DW_OP_div", OperandRule.noArgs),
   ("DW_OP_minus", OperandRule.noArgs),
   ("DW_OP_mod", OperandRule.noArgs),
   ("DW_OP_mul", OperandRule.noArgs),
   ("DW_OP_neg", OperandRule.noArgs),
   ("DW_OP_not", OperandRule.noArgs),
   ("DW_OP_or", OperandRule.noArgs),
   ("DW_OP_eq", OperandRule.noArgs),
   ("DW_OP_ge", OperandRule.noArgs),
   ("DW_OP_gt", OperandRule.noArgs),
   ("DW_OP_le", OperandRule.noArgs),
   ("DW_OP_lt", OperandRule.noArgs),
   ("DW_OP_ne", OperandRule.noArgs),
   ("DW_OP_plus", OperandRule.noArgs),
   ("DW_OP_shl", OperandRule.noArgs),
   ("DW_OP_shr", OperandRule.noArgs),
   ("DW_OP_shra", OperandRule.noArgs),
   ("DW_OP_addr", OperandRule.withStruct StructKind.target_addr),
   ("DW_OP_const1u", OperandRule.withStruct StructKind.uint8),
   ("DW_OP_const1s", OperandRule.withStruct StructKind.int8),
   ("DW_OP_const2u", OperandRule.withStruct StructKind.uint16),
   ("DW_OP_const2s", OperandRule.withStruct StructKind.int16),
   ("DW_OP_const4u", OperandRule.withStruct StructKind.uint32),
   ("DW_OP_const4s", OperandRule.withStruct StructKind.int32),
   ("DW_OP_const8u", OperandRule.withStruct StructKind.uint64),
   ("DW_OP_const8s", OperandRule.withStruct StructKind.int64),
   ("DW_OP_constu", OperandRule.withStruct StructKind.uleb128),
   ("DW_OP_consts", OperandRule.withStruct StructKind.sleb128),
   ("DW_OP_plus_uconst", OperandRule.withStruct StructKind.uleb128),
   ("DW_OP_pick", OperandRule.withStruct StructKind.uint8),
   ("DW_OP_bra", OperandRule.withStruct StructKind.int16),
   ("DW_OP_skip", OperandRule.withStruct StructKind.int16)]
  ++ (List.range 32).foldr
      (fun i acc =>
        ("DW_OP_lit" ++ toString i, OperandRule.noArgs)
        :: ("DW_OP_reg" ++ toString i, OperandRule.noArgs)
        :: ("DW_OP_breg" ++ toString i, OperandRule.withStruct StructKind.sleb128)
        :: acc)
      []

/-- Source `_init_dispatch_table`: `self._dispatch_table = {}` followed by
`add(opcode_name, func)` for each spec, where `add` performs
`self._dispatch_table[DW_OP_name2opcode[opcode_name]] = func`.  (All
names used are keys of `DW_OP_name2opcode`, so the `KeyError` branch of
the name lookup is unreachable.) -/
def _dispatch_table : List (Nat × OperandRule) :=
  opcode_visitor_specs.foldl
    (fun tbl p =>
      match dictGet sEq DW_OP_name2opcode p.1 with
      | some c => dictInsert natEq tbl c p.2
      | none => tbl)
    []

/-- The decode-time visitor state: the bytes remaining after the
current stream position, and the `_cur_args` field. -/
structure EngineState where
  rem : List Nat
  cur_args : List Int
deriving DecidableEq

/-- Decode-time failures: `KeyError` on the opcode-to-name lookup, the
codec reading past the end of input, and `NotImplementedError` from the
base-class hooks. -/
inductive DecodeErr where
  | unknownOpcode (b : Nat)
  | operandUnderrun
  | notImplemented
deriving DecidableEq

/-- One completion-hook invocation
`self._after_visit(self._cur_opcode, self._cur_opcode_name, self._cur_args)`. -/
structure Event where
  opcode : Nat
  opname : String
  args : List Int
deriving DecidableEq

/-- How one `process_expr` run ends: normal stream exhaustion, a raised
error, or (an artefact of the fuelled embedding only) running out of
fuel. -/
inductive Outcome where
  | done
  | err (e : DecodeErr)
  | outOfFuel
deriving DecidableEq

/-- The two extension points of `GenericLocationExprVisitor` that a
concrete consumer overrides: the default visitor `_default_visitor`
(as a state transformer over the stream and `_cur_args`), and whether
the completion hook `_after_visit` raises `NotImplementedError` (the
base class) or returns normally (any concrete consumer; its side
effects are the recorded `Event` trace). -/
structure Hooks where
  dv : Nat → String → EngineState → Except DecodeErr EngineState
  avRaises : Bool

/-- Run a specifically bound visitor: `_visit_OP_with_no_args` sets
`_cur_args = []` and reads nothing; a `_make_visitor_for_struct`
closure sets `_cur_args = [struct_parse(struct, self.stream)]`,
advancing the stream past the parsed operand. -/
def runRule (structs : DwarfStructs) (r : OperandRule) (s : EngineState) :
    Except DecodeErr EngineState :=
  match r with
  | .noArgs => .ok { s with cur_args := [] }
  | .withStruct k =>
    match parseStruct structs k s.rem with
    | some (v, rest) => .ok { rem := rest, cur_args := [v] }
    | none => .error .operandUnderrun

/-- The result of one iteration of the `while True` loop before the
completion hook: stream exhausted, an error raised, or one decoded
instruction (the event the completion hook is invoked with, and the
state after it). -/
inductive StepRes where
  | finished
  | errStep (e : DecodeErr)
  | step (ev : Event) (s2 : EngineState)
deriving DecidableEq

/-- One iteration of the decode loop: read one byte (exhaustion ends
the loop), resolve the opcode name in `DW_OP_opcode2name` (a missing
entry is a `KeyError`), dispatch to
`self._dispatch_table.get(opcode, self._default_visitor)`, and build
the completion-hook invocation from `_cur_opcode`, `_cur_opcode_name`
and `_cur_args`. -/
def processStep (structs : DwarfStructs) (hooks : Hooks) : EngineState → StepRes
  | { rem := [], cur_args := _ } => .finished
  | { rem := b :: rest, cur_args := args } =>
    match dictGet natEq DW_OP_opcode2name b with
    | none => .errStep (.unknownOpcode b)
    | some opname =>
      match
        (match dictGet natEq _dispatch_table b with
         | some r => runRule structs r { rem := rest, cur_args := args }
         | none => hooks.dv b opname { rem := rest, cur_args := args }) with
      | .error e => .errStep e
      | .ok s2 => .step { opcode := b, opname := opname, args := s2.cur_args } s2

/-- The `while True` loop of `process_expr`, fuelled for structural
recursion (each iteration consumes at least the opcode byte, so
`length + 1` fuel always suffices — proved below).  Returns the list of
completion-hook invocations in order, and how the run ended. -/
def processLoop (structs : DwarfStructs) (hooks : Hooks) :
    Nat → EngineState → List Event × Outcome
  | 0, _ => ([], .outOfFuel)
  | fuel + 1, s =>
    match processStep structs hooks s with
    | .finished => ([], .done)
    | .errStep e => ([], .err e)
    | .step ev s2 =>
      match hooks.avRaises with
      | true => ([ev], .err .notImplemented)
      | false =>
        (ev :: (processLoop structs hooks fuel s2).1,
         (processLoop structs hooks fuel s2).2)

/-- The two input shapes `process_expr` accepts: a file-like stream
object, or a list of byte values. -/
inductive ExprInput where
  | fileStream (bytes : List Nat)
  | bytelist (vals : List Nat)

/-- Modelled from the spec: `bytelist2string` (in a module outside the
analysed source) joins a finite ordered sequence of byte values into
the byte string that `cStringIO.StringIO` then exposes as an equivalent
positioned-read view — the same byte values in the same order. -/
def bytelist2string (l : List Nat) : List Nat := l

/-- The stream `process_expr` decodes from: a file-like object is used
as-is, a byte-value list is wrapped via
`StringIO(bytelist2string(expr))`. -/
def exprStream : ExprInput → List Nat
  | .fileStream bs => bs
  | .bytelist l => bytelist2string l

/-- Source `process_expr(expr)`: normalize the input into a stream, then run
the decode loop from its start (with fresh `_cur_args = []`, as set by
`__init__`), with enough fuel for the whole stream. -/
def process_expr (structs : DwarfStructs) (hooks : Hooks) (expr : ExprInput) :
    List Event × Outcome :=
  processLoop structs hooks ((exprStream expr).length + 1)
    { rem := exprStream expr, cur_args := [] }

/-- The base class's hooks: `_default_visitor` and `_after_visit` both
just `raise NotImplementedError()`. -/
def baseHooks : Hooks :=
  { dv := fun _ _ _ => .error .notImplemented, avRaises := true }

/-- A concrete consumer whose default visitor does nothing (reads no
bytes, does not assign `_cur_args`) and whose completion hook returns
normally. -/
def idHooks : Hooks :=
  { dv := fun _ _ s => .ok s, avRaises := false }

/-- One well-formed instruction, as a standalone byte chunk: the first
byte is an opcode that is both in `DW_OP_opcode2name` and specifically
bound in `_dispatch_table`, and its bound rule consumes exactly the
remaining bytes of the chunk.  Returns the completion-hook event the
chunk decodes to. -/
def instrEvent? (structs : DwarfStructs) (chunk : List Nat) : Option Event :=
  match chunk with
  | [] => none
  | b :: rest =>
    match dictGet natEq DW_OP_opcode2name b, dictGet natEq _dispatch_table b with
    | some opname, some r =>
      match runRule structs r { rem := rest, cur_args := [] } with
      | .ok s2 =>
        match s2.rem with
        | [] => some { opcode := b, opname := opname, args := s2.cur_args }
        | _ :: _ => none
      | .error _ => none
    | _, _ => none

/-- The events of a list of well-formed instruction chunks (`none` if
any chunk is not a single well-formed instruction). -/
def instrEvents (structs : DwarfStructs) : List (List Nat) → Option (List Event)
  | [] => some []
  | c :: cs =>
    match instrEvent? structs c, instrEvents structs cs with
    | some e, some es => some (e :: es)
    | _, _ => none

/-- The `_cur_args` value left after a sequence of hook invocations:
the last event's operand list, or the given initial value if there was
none. -/
def lastArgsOf (evs : List Event) (a0 : List Int) : List Int :=
  match evs with
  | [] => a0
  | e :: es => lastArgsOf es e.args

theorem parseFixed_extend (width : Nat) (sg : Bool) (l t : List Nat) (v : Int)
    (r : List Nat) (h : parseFixed width sg l = some (v, r)) :
    parseFixed width sg (l ++ t) = some (v, r ++ t) := by
  unfold parseFixed at h ⊢
  by_cases hw : width ≤ l.length
  · rw [if_pos hw] at h
    rw [if_pos (by rw [List.length_append]; exact le_trans hw (Nat.le_add_right _ _)),
        List.take_append_of_le_length hw, List.drop_append_of_le_length hw]
    injection h with h
    injection h with h1 h2
    rw [h1, h2]
  · rw [if_neg hw] at h
    exact absurd h (by simp)

theorem parseFixed_length (width : Nat) (sg : Bool) (l : List Nat) (v : Int)
    (r : List Nat) (h : parseFixed width sg l = some (v, r)) :
    r.length ≤ l.length := by
  unfold parseFixed at h
  by_cases hw : width ≤ l.length
  · rw [if_pos hw] at h
    injection h with h
    injection h with _ h2
    rw [← h2, List.length_drop]
    exact Nat.sub_le _ _
  · rw [if_neg hw] at h
    exact absurd h (by simp)

theorem parseULEB_extend (l t : List Nat) (v : Nat) (r : List Nat)
    (h : parseULEB l = some (v, r)) :
    parseULEB (l ++ t) = some (v, r ++ t) := by
  induction l generalizing v r with
  | nil => exact absurd h (by simp [parseULEB])
  | cons b rest ih =>
    simp only [parseULEB, List.append_eq] at h ⊢
    by_cases hb : b < 128
    · rw [if_pos hb] at h
      rw [if_pos hb]
      injection h with h
      injection h with h1 h2
      rw [h1, h2]
    · rw [if_neg hb] at h
      rw [if_neg hb]
      match hrec : parseULEB rest with
      | some (v0, r0) =>
        rw [hrec] at h
        rw [ih v0 r0 hrec]
        injection h with h
        injection h with h1 h2
        rw [← h1, ← h2]
      | none =>
        rw [hrec] at h
        exact absurd h (by simp)

theorem parseULEB_length (l : List Nat) (v : Nat) (r : List Nat)
    (h : parseULEB l = some (v, r)) :
    r.length ≤ l.length := by
  induction l generalizing v r with
  | nil => exact absurd h (by simp [parseULEB])
  | cons b rest ih =>
    simp only [parseULEB] at h
    by_cases hb : b < 128
    · rw [if_pos hb] at h
      injection h with h
      injection h with _ h2
      rw [← h2]
      simp
    · rw [if_neg hb] at h
      match hrec : parseULEB rest with
      | some (v0, r0) =>
        rw [hrec] at h
        injection h with h
        injection h with _ h2
        rw [← h2]
        exact Nat.le_succ_of_le (ih v0 r0 hrec)
      | none =>
        rw [hrec] at h
        exact absurd h (by simp)

theorem parseSLEB_extend (l t : List Nat) (v : Int) (r : List Nat)
    (h : parseSLEB l = some (v, r)) :
    parseSLEB (l ++ t) = some (v, r ++ t) := by
  induction l generalizing v r with
  | nil => exact absurd h (by simp [parseSLEB])
  | cons b rest ih =>
    simp only [parseSLEB, List.append_eq] at h ⊢
    by_cases hb : b < 128
    · rw [if_pos hb] at h
      rw [if_pos hb]
      injection h with h
      injection h with h1 h2
      rw [h1, h2]
    · rw [if_neg hb] at h
      rw [if_neg hb]
      match hrec : parseSLEB rest with
      | some (v0, r0) =>
        rw [hrec] at h
        rw [ih v0 r0 hrec]
        injection h with h
        injection h with h1 h2
        rw [← h1, ← h2]
      | none =>
        rw [hrec] at h
        exact absurd h (by simp)

theorem parseSLEB_length (l : List Nat) (v : Int) (r : List Nat)
    (h : parseSLEB l = some (v, r)) :
    r.length ≤ l.length := by
  induction l generalizing v r with
  | nil => exact absurd h (by simp [parseSLEB])
  | cons b rest ih =>
    simp only [parseSLEB] at h
    by_cases hb : b < 128
    · rw [if_pos hb] at h
      injection h with h
      injection h with _ h2
      rw [← h2]
      simp
    · rw [if_neg hb] at h
      match hrec : parseSLEB rest with
      | some (v0, r0) =>
        rw [hrec] at h
        injection h with h
        injection h with _ h2
        rw [← h2]
        exact Nat.le_succ_of_le (ih v0 r0 hrec)
      | none =>
        rw [hrec] at h
        exact absurd h (by simp)

theorem parseStruct_extend (structs : DwarfStructs) (k : StructKind) (l t : List Nat)
    (v : Int) (r : List Nat) (h : parseStruct structs k l = some (v, r)) :
    parseStruct structs k (l ++ t) = some (v, r ++ t) := by
  cases k <;> simp only [parseStruct] at h ⊢
  case target_addr => exact parseFixed_extend _ _ _ _ _ _ h
  case uint8 => exact parseFixed_extend _ _ _ _ _ _ h
  case int8 => exact parseFixed_extend _ _ _ _ _ _ h
  case uint16 => exact parseFixed_extend _ _ _ _ _ _ h
  case int16 => exact parseFixed_extend _ _ _ _ _ _ h
  case uint32 => exact parseFixed_extend _ _ _ _ _ _ h
  case int32 => exact parseFixed_extend _ _ _ _ _ _ h
  case uint64 => exact parseFixed_extend _ _ _ _ _ _ h
  case int64 => exact parseFixed_extend _ _ _ _ _ _ h
  case uleb128 =>
    match hrec : parseULEB l with
    | some (v0, r0) =>
      rw [hrec] at h
      rw [parseULEB_extend _ t _ _ hrec]
      injection h with h
      injection h with h1 h2
      rw [← h1, ← h2]
    | none =>
      rw [hrec] at h
      exact absurd h (by simp)
  case sleb128 => exact parseSLEB_extend _ _ _ _ h

theorem parseStruct_length (structs : DwarfStructs) (k : StructKind) (l : List Nat)
    (v : Int) (r : List Nat) (h : parseStruct structs k l = some (v, r)) :
    r.length ≤ l.length := by
  cases k <;> simp only [parseStruct] at h
  case target_addr => exact parseFixed_length _ _ _ _ _ h
  case uint8 => exact parseFixed_length _ _ _ _ _ h
  case int8 => exact parseFixed_length _ _ _ _ _ h
  case uint16 => exact parseFixed_length _ _ _ _ _ h
  case int16 => exact parseFixed_length _ _ _ _ _ h
  case uint32 => exact parseFixed_length _ _ _ _ _ h
  case int32 => exact parseFixed_length _ _ _ _ _ h
  case uint64 => exact parseFixed_length _ _ _ _ _ h
  case int64 => exact parseFixed_length _ _ _ _ _ h
  case uleb128 =>
    match hrec : parseULEB l with
    | some (v0, r0) =>
      rw [hrec] at h
      injection h with h
      injection h with _ h2
      rw [← h2]
      exact parseULEB_length _ _ _ hrec
    | none =>
      rw [hrec] at h
      exact absurd h (by simp)
  case sleb128 => exact parseSLEB_length _ _ _ h

theorem runRule_args_ok (structs : DwarfStructs) (r : OperandRule) (rest : List Nat)
    (a a2 : List Int) (rem2 : List Nat)
    (h : runRule structs r { rem := rest, cur_args := a } =
      .ok { rem := rem2, cur_args := a2 }) :
    runRule structs r { rem := rest, cur_args := a2 } =
      .ok { rem := rem2, cur_args := a2 } := by
  cases r with
  | noArgs =>
    simp only [runRule] at h ⊢
    injection h with h
    have h1 : rest = rem2 := congrArg EngineState.rem h
    have h2 : ([] : List Int) = a2 := congrArg EngineState.cur_args h
    rw [h1, ← h2]
  | withStruct k =>
    simp only [runRule] at h ⊢
    exact h

theorem runRule_extend (structs : DwarfStructs) (r : OperandRule) (rest t : List Nat)
    (a a2 : List Int)
    (h : runRule structs r { rem := rest, cur_args := [] } =
      .ok { rem := [], cur_args := a2 }) :
    runRule structs r { rem := rest ++ t, cur_args := a } =
      .ok { rem := t, cur_args := a2 } := by
  cases r with
  | noArgs =>
    simp only [runRule] at h ⊢
    injection h with h
    have h1 : rest = [] := congrArg EngineState.rem h
    have h2 : ([] : List Int) = a2 := congrArg EngineState.cur_args h
    subst h1
    rw [← h2]
    rfl
  | withStruct k =>
    simp only [runRule] at h ⊢
    match hp : parseStruct structs k rest with
    | some (v0, r0) =>
      rw [hp] at h
      injection h with h
      have h1 : r0 = [] := congrArg EngineState.rem h
      have h2 : [v0] = a2 := congrArg EngineState.cur_args h
      rw [parseStruct_extend structs k rest t v0 r0 hp]
      subst h1
      rw [← h2]
      rfl
    | none =>
      rw [hp] at h
      exact absurd h (by simp)

theorem runRule_length (structs : DwarfStructs) (r : OperandRule) (s s2 : EngineState)
    (h : runRule structs r s = .ok s2) : s2.rem.length ≤ s.rem.length := by
  cases r with
  | noArgs =>
    simp only [runRule] at h
    injection h with h
    rw [← h]
  | withStruct k =>
    simp only [runRule] at h
    match hp : parseStruct structs k s.rem with
    | some (v0, r0) =>
      rw [hp] at h
      injection h with h
      rw [← h]
      exact parseStruct_length structs k s.rem v0 r0 hp
    | none =>
      rw [hp] at h
      exact absurd h (by simp)

theorem runRule_error (structs : DwarfStructs) (r : OperandRule) (s : EngineState)
    (e : DecodeErr) (h : runRule structs r s = .error e) : e = .operandUnderrun := by
  cases r with
  | noArgs => exact absurd h (by simp [runRule])
  | withStruct k =>
    simp only [runRule] at h
    match hp : parseStruct structs k s.rem with
    | some (v0, r0) =>
      rw [hp] at h
      exact absurd h (by simp)
    | none =>
      rw [hp] at h
      injection h with h
      rw [h]

theorem processStep_nil (structs : DwarfStructs) (hooks : Hooks) (a : List Int) :
    processStep structs hooks { rem := [], cur_args := a } = .finished := rfl

theorem processLoop_finished (structs : DwarfStructs) (hooks : Hooks) (fuel : Nat)
    (s : EngineState) (h : processStep structs hooks s = .finished) :
    processLoop structs hooks (fuel + 1) s = ([], .done) := by
  simp [processLoop, h]

theorem processLoop_errStep (structs : DwarfStructs) (hooks : Hooks) (fuel : Nat)
    (s : EngineState) (e : DecodeErr) (h : processStep structs hooks s = .errStep e) :
    processLoop structs hooks (fuel + 1) s = ([], .err e) := by
  simp [processLoop, h]

theorem processLoop_step_raise (structs : DwarfStructs) (hooks : Hooks) (fuel : Nat)
    (s : EngineState) (ev : Event) (s2 : EngineState)
    (h : processStep structs hooks s = .step ev s2) (hav : hooks.avRaises = true) :
    processLoop structs hooks (fuel + 1) s = ([ev], .err .notImplemented) := by
  simp [processLoop, h, hav]

theorem processLoop_step_cont (structs : DwarfStructs) (hooks : Hooks) (fuel : Nat)
    (s : EngineState) (ev : Event) (s2 : EngineState)
    (h : processStep structs hooks s = .step ev s2) (hav : hooks.avRaises = false) :
    processLoop structs hooks (fuel + 1) s =
      (ev :: (processLoop structs hooks fuel s2).1,
       (processLoop structs hooks fuel s2).2) := by
  simp [processLoop, h, hav]

theorem processLoop_nil (structs : DwarfStructs) (hooks : Hooks) (fuel : Nat)
    (a : List Int) :
    processLoop structs hooks (fuel + 1) { rem := [], cur_args := a } = ([], .done) :=
  processLoop_finished structs hooks fuel _ (processStep_nil structs hooks a)

theorem processLoop_mono (structs : DwarfStructs) (hooks : Hooks) :
    ∀ (fuel : Nat) (s : EngineState),
      (processLoop structs hooks fuel s).2 ≠ .outOfFuel →
      ∀ k, processLoop structs hooks (fuel + k) s = processLoop structs hooks fuel s := by
  intro fuel
  induction fuel with
  | zero =>
    intro s h k
    exact absurd rfl h
  | succ f ih =>
    intro s h k
    have heq : f + 1 + k = (f + k) + 1 := by omega
    rw [heq]
    match hstep : processStep structs hooks s with
    | .finished =>
      rw [processLoop_finished structs hooks (f + k) s hstep,
          processLoop_finished structs hooks f s hstep]
    | .errStep e =>
      rw [processLoop_errStep structs hooks (f + k) s e hstep,
          processLoop_errStep structs hooks f s e hstep]
    | .step ev s2 =>
      match hav : hooks.avRaises with
      | true =>
        rw [processLoop_step_raise structs hooks (f + k) s ev s2 hstep hav,
            processLoop_step_raise structs hooks f s ev s2 hstep hav]
      | false =>
        rw [processLoop_step_cont structs hooks f s ev s2 hstep hav] at h
        have h2 : (processLoop structs hooks f s2).2 ≠ .outOfFuel := h
        rw [processLoop_step_cont structs hooks (f + k) s ev s2 hstep hav,
            processLoop_step_cont structs hooks f s ev s2 hstep hav,
            ih s2 h2 k]

theorem processStep_valid (structs : DwarfStructs) (hooks : Hooks) (c tail : List Nat)
    (e : Event) (a0 : List Int) (h : instrEvent? structs c = some e) :
    processStep structs hooks { rem := c ++ tail, cur_args := a0 } =
      .step e { rem := tail, cur_args := e.args } := by
  match c with
  | [] => exact absurd h (by simp [instrEvent?])
  | b :: rest =>
    simp only [instrEvent?] at h
    match h1 : dictGet natEq DW_OP_opcode2name b, h2 : dictGet natEq _dispatch_table b with
    | some opname, some r =>
      simp only [h1, h2] at h
      match h3 : runRule structs r { rem := rest, cur_args := [] } with
      | .ok s2 =>
        simp only [h3] at h
        cases hs2 : s2.rem with
        | cons x xs =>
          rw [hs2] at h
          exact absurd h (by simp)
        | nil =>
          rw [hs2] at h
          injection h with h
          subst h
          have h3a : runRule structs r { rem := rest, cur_args := [] } =
              .ok { rem := [], cur_args := s2.cur_args } := by
            rw [h3]
            cases s2 with
            | mk r0 a0 =>
              simp only at hs2
              rw [hs2]
          simp only [processStep, List.cons_append, h1, h2]
          rw [runRule_extend structs r rest tail a0 s2.cur_args h3a]
      | .error e0 =>
        rw [h3] at h
        exact absurd h (by simp)
    | some opname, none =>
      simp only [h1, h2] at h
      exact absurd h (by simp)
    | none, some r =>
      simp only [h1, h2] at h
      exact absurd h (by simp)
    | none, none =>
      simp only [h1, h2] at h
      exact absurd h (by simp)

theorem processLoop_join (structs : DwarfStructs) (hooks : Hooks)
    (hav : hooks.avRaises = false) :
    ∀ (chunks : List (List Nat)) (evs : List Event) (tail : List Nat) (a0 : List Int)
      (fuel : Nat),
      instrEvents structs chunks = some evs →
      processLoop structs hooks (chunks.length + fuel)
          { rem := chunks.flatten ++ tail, cur_args := a0 } =
        (evs ++ (processLoop structs hooks fuel
            { rem := tail, cur_args := lastArgsOf evs a0 }).1,
         (processLoop structs hooks fuel
            { rem := tail, cur_args := lastArgsOf evs a0 }).2) := by
  intro chunks
  induction chunks with
  | nil =>
    intro evs tail a0 fuel h
    simp only [instrEvents] at h
    injection h with h
    subst h
    simp [lastArgsOf]
  | cons c cs ih =>
    intro evs tail a0 fuel h
    simp only [instrEvents] at h
    match h1 : instrEvent? structs c, h2 : instrEvents structs cs with
    | some e, some es =>
      simp only [h1, h2] at h
      injection h with h
      subst h
      have hlen : (c :: cs).length + fuel = (cs.length + fuel) + 1 := by
        simp only [List.length_cons]
        omega
      rw [hlen]
      have hjoin : (c :: cs).flatten ++ tail = c ++ (cs.flatten ++ tail) := by
        simp
      have hst : processStep structs hooks
          { rem := (c :: cs).flatten ++ tail, cur_args := a0 } =
          .step e { rem := cs.flatten ++ tail, cur_args := e.args } := by
        rw [hjoin]
        exact processStep_valid structs hooks c (cs.flatten ++ tail) e a0 h1
      rw [processLoop_step_cont structs hooks (cs.length + fuel) _ e _ hst hav]
      rw [ih es tail e.args fuel h2]
      simp [lastArgsOf]
    | some e, none =>
      simp only [h1, h2] at h
      exact absurd h (by simp)
    | none, some es =>
      simp only [h1, h2] at h
      exact absurd h (by simp)
    | none, none =>
      simp only [h1, h2] at h
      exact absurd h (by simp)

theorem instrEvents_cons (structs : DwarfStructs) (c : List Nat) (cs : List (List Nat))
    (evs : List Event) (h : instrEvents structs (c :: cs) = some evs) :
    ∃ e es, instrEvent? structs c = some e ∧ instrEvents structs cs = some es ∧
      evs = e :: es := by
  simp only [instrEvents] at h
  match h1 : instrEvent? structs c, h2 : instrEvents structs cs with
  | some e, some es =>
    simp only [h1, h2] at h
    injection h with h
    exact ⟨e, es, rfl, rfl, h.symm⟩
  | some e, none =>
    simp only [h1, h2] at h
    exact absurd h (by simp)
  | none, some es =>
    simp only [h1, h2] at h
    exact absurd h (by simp)
  | none, none =>
    simp only [h1, h2] at h
    exact absurd h (by simp)

theorem instrEvent?_length (structs : DwarfStructs) (c : List Nat) (e : Event)
    (h : instrEvent? structs c = some e) : 1 ≤ c.length := by
  match c with
  | [] => exact absurd h (by simp [instrEvent?])
  | b :: rest => simp

theorem instrEvents_length (structs : DwarfStructs) :
    ∀ (chunks : List (List Nat)) (evs : List Event),
      instrEvents structs chunks = some evs → evs.length = chunks.length := by
  intro chunks
  induction chunks with
  | nil =>
    intro evs h
    simp only [instrEvents] at h
    injection h with h
    subst h
    rfl
  | cons c cs ih =>
    intro evs h
    obtain ⟨e, es, _, h2, hevs⟩ := instrEvents_cons structs c cs evs h
    subst hevs
    simp [ih es h2]

theorem instrEvents_flatten_length (structs : DwarfStructs) :
    ∀ (chunks : List (List Nat)) (evs : List Event),
      instrEvents structs chunks = some evs →
      chunks.length ≤ chunks.flatten.length := by
  intro chunks
  induction chunks with
  | nil =>
    intro evs h
    simp
  | cons c cs ih =>
    intro evs h
    obtain ⟨e, es, h1, h2, _⟩ := instrEvents_cons structs c cs evs h
    have hc := instrEvent?_length structs c e h1
    have hcs := ih es h2
    simp only [List.flatten_cons, List.length_append, List.length_cons]
    omega

theorem processStep_length (structs : DwarfStructs) (hooks : Hooks)
    (hdv : ∀ b nm s s2, hooks.dv b nm s = .ok s2 → s2.rem.length ≤ s.rem.length)
    (s : EngineState) (ev : Event) (s2 : EngineState)
    (h : processStep structs hooks s = .step ev s2) :
    s2.rem.length < s.rem.length := by
  match s with
  | { rem := [], cur_args := sargs } =>
    rw [processStep_nil] at h
    exact absurd h (by simp)
  | { rem := b :: rest, cur_args := sargs } =>
    simp only [processStep] at h
    match hn : dictGet natEq DW_OP_opcode2name b with
    | none =>
      simp only [hn] at h
      exact absurd h (by simp)
    | some opname =>
      simp only [hn] at h
      match hd : dictGet natEq _dispatch_table b with
      | some r =>
        simp only [hd] at h
        match hr : runRule structs r { rem := rest, cur_args := sargs } with
        | .ok s2a =>
          simp only [hr] at h
          injection h with _ h
          subst h
          have hle := runRule_length structs r _ _ hr
          simp only at hle
          simp only [List.length_cons]
          omega
        | .error e0 =>
          simp only [hr] at h
          exact absurd h (by simp)
      | none =>
        simp only [hd] at h
        match hr : hooks.dv b opname { rem := rest, cur_args := sargs } with
        | .ok s2a =>
          simp only [hr] at h
          injection h with _ h
          subst h
          have hle := hdv b opname _ _ hr
          simp only at hle
          simp only [List.length_cons]
          omega
        | .error e0 =>
          simp only [hr] at h
          exact absurd h (by simp)

theorem processLoop_fuel (structs : DwarfStructs) (hooks : Hooks)
    (hdv : ∀ b nm s s2, hooks.dv b nm s = .ok s2 → s2.rem.length ≤ s.rem.length) :
    ∀ (fuel : Nat) (s : EngineState), s.rem.length < fuel →
      (processLoop structs hooks fuel s).2 ≠ .outOfFuel := by
  intro fuel
  induction fuel with
  | zero =>
    intro s h
    exact absurd h (Nat.not_lt_zero _)
  | succ f ih =>
    intro s h
    match hstep : processStep structs hooks s with
    | .finished =>
      rw [processLoop_finished structs hooks f s hstep]
      simp
    | .errStep e =>
      rw [processLoop_errStep structs hooks f s e hstep]
      simp
    | .step ev s2 =>
      match hav : hooks.avRaises with
      | true =>
        rw [processLoop_step_raise structs hooks f s ev s2 hstep hav]
        simp
      | false =>
        rw [processLoop_step_cont structs hooks f s ev s2 hstep hav]
        have hlt := processStep_length structs hooks hdv s ev s2 hstep
        exact ih s2 (by omega)


/-- Claim C2: the opcode table is a strict bijection — for every entry
of `DW_OP_name2opcode` the reverse map returns exactly the name, and
for every entry of `DW_OP_opcode2name` the forward map returns exactly
the code, the three dynamically generated families included. -/
theorem opcode_table_bijection :
    (DW_OP_name2opcode.all fun p =>
      dictGet natEq DW_OP_opcode2name p.2 == some p.1) = true ∧
    (DW_OP_opcode2name.all fun p =>
      dictGet sEq DW_OP_name2opcode p.2 == some p.1) = true := by
  decide

/-- Claim C6: for each generated family (`DW_OP_lit` from 0x30,
`DW_OP_reg` from 0x50, `DW_OP_breg` from 0x70) and every index
`i < 32`, the name `prefix + str(i)` maps to exactly `base + i`. -/
theorem dynamic_families_values :
    ((List.range 32).all fun i =>
      dictGet sEq DW_OP_name2opcode ("DW_OP_lit" ++ toString i) == some (0x30 + i) &&
      dictGet sEq DW_OP_name2opcode ("DW_OP_reg" ++ toString i) == some (0x50 + i) &&
      dictGet sEq DW_OP_name2opcode ("DW_OP_breg" ++ toString i) == some (0x70 + i)) =
      true := by
  decide

/-- Claim C3, counterexample: `DW_OP_regx` is a variable-length
(ULEB128) operand opcode, present in the opcode table at code 0x90, yet
the dispatch table built by `_init_dispatch_table` has no entry for
0x90 at all — the opcode falls through to the default visitor, contrary
to the claim that every base-128 opcode (explicitly including
`DW_OP_regx`) has a specific LEB-decoding entry. -/
theorem leb_opcodes_unmapped_counterexample :
    dictGet sEq DW_OP_name2opcode "DW_OP_regx" = some 0x90 ∧
    dictGet natEq _dispatch_table 0x90 = none := by
  decide

/-- Claim C3, amended: the base-128 opcodes that do get a specific
dispatch entry delegating to the LEB128 codec with exactly one operand
are `DW_OP_constu` (0x10), `DW_OP_consts` (0x11), `DW_OP_plus_uconst`
(0x23) and `DW_OP_breg0..31` (0x70..0x8f); `DW_OP_regx` (0x90),
`DW_OP_fbreg` (0x91), `DW_OP_bregx` (0x92) and `DW_OP_piece` (0x93)
have no dispatch entry and fall through to the default visitor. -/
theorem leb_dispatch_entries_amended :
    dictGet natEq _dispatch_table 0x10 =
      some (OperandRule.withStruct StructKind.uleb128) ∧
    dictGet natEq _dispatch_table 0x11 =
      some (OperandRule.withStruct StructKind.sleb128) ∧
    dictGet natEq _dispatch_table 0x23 =
      some (OperandRule.withStruct StructKind.uleb128) ∧
    ((List.range 32).all fun i =>
      dictGet natEq _dispatch_table (0x70 + i) ==
        some (OperandRule.withStruct StructKind.sleb128)) = true ∧
    dictGet natEq _dispatch_table 0x90 = none ∧
    dictGet natEq _dispatch_table 0x91 = none ∧
    dictGet natEq _dispatch_table 0x92 = none ∧
    dictGet natEq _dispatch_table 0x93 = none := by
  decide

/-- Claim C4, counterexample: applying the range-expansion rule where a
generated key is already present does not signal any construction-time
error — `_generate_dynamic_values` is a plain map-to-map function whose
dict assignment silently replaces the existing entry (here
`DW_OP_lit0`, previously 0x99, is overwritten in place with 0x30). -/
theorem generate_dynamic_values_overwrites :
    _generate_dynamic_values [("DW_OP_lit0", 0x99)] "DW_OP_lit" 0 0 0x30 =
      [("DW_OP_lit0", 0x30)] := by
  decide

/-- Claim C4, amended: if the range-expansion rule would overwrite an
existing entry it silently replaces that entry's value in place (no
error is signalled; other entries are untouched); in the actual table
construction no overwrite occurs — all 96 generated entries are fresh
appends to the 68 static entries. -/
theorem generate_dynamic_values_amended :
    dictGet sEq
      (_generate_dynamic_values [("DW_OP_reg3", 0x11), ("other", 0x22)]
        "DW_OP_reg" 0 31 0x50) "DW_OP_reg3" = some 0x53 ∧
    dictGet sEq
      (_generate_dynamic_values [("DW_OP_reg3", 0x11), ("other", 0x22)]
        "DW_OP_reg" 0 31 0x50) "other" = some 0x22 ∧
    DW_OP_name2opcode.length = DW_OP_static_pairs.length + 96 := by
  decide

/-- Claim C1: decoding a byte sequence that is the concatenation of N
well-formed instructions (each a dispatch-mapped opcode followed by
exactly the operand bytes its bound rule consumes) invokes the
completion hook exactly N times, once per instruction in input order
with that instruction's opcode, name and operands, and the run ends in
normal stream exhaustion; the instruction chunk lengths sum to the
total input length, and the zero-length input yields zero hook
invocations and immediate normal termination. -/
theorem process_expr_concat_instructions (structs : DwarfStructs) (hooks : Hooks)
    (chunks : List (List Nat)) (evs : List Event)
    (hav : hooks.avRaises = false)
    (h : instrEvents structs chunks = some evs) :
    process_expr structs hooks (.fileStream chunks.flatten) = (evs, .done) ∧
    evs.length = chunks.length ∧
    (chunks.map List.length).sum = chunks.flatten.length ∧
    process_expr structs hooks (.fileStream []) = ([], .done) := by
  refine ⟨?_, instrEvents_length structs chunks evs h,
    (List.length_flatten chunks).symm, processLoop_nil structs hooks 0 []⟩
  unfold process_expr
  simp only [exprStream]
  have hle := instrEvents_flatten_length structs chunks evs h
  obtain ⟨k, hk⟩ : ∃ k, chunks.flatten.length + 1 = (chunks.length + 1) + k :=
    ⟨chunks.flatten.length - chunks.length, by omega⟩
  rw [hk]
  have hjoin := processLoop_join structs hooks hav chunks evs [] [] 1 h
  rw [processLoop_nil structs hooks 0 (lastArgsOf evs [])] at hjoin
  simp only [List.append_nil] at hjoin
  have hne : (processLoop structs hooks (chunks.length + 1)
      { rem := chunks.flatten, cur_args := [] }).2 ≠ .outOfFuel := by
    rw [hjoin]
    simp
  rw [processLoop_mono structs hooks (chunks.length + 1) _ hne k, hjoin]

/-- Witness for C1 at a concrete input: three instructions
`DW_OP_dup`, `DW_OP_const1u 255`, `DW_OP_constu 129` (the latter a
two-byte ULEB128). -/
theorem process_expr_concat_instructions_witness :
    idHooks.avRaises = false ∧
    instrEvents ⟨4⟩ [[0x12], [0x08, 0xff], [0x10, 0x81, 0x01]] =
      some [⟨0x12, "DW_OP_dup", []⟩, ⟨0x08, "DW_OP_const1u", [255]⟩,
            ⟨0x10, "DW_OP_constu", [129]⟩] ∧
    (process_expr ⟨4⟩ idHooks
        (.fileStream ([[0x12], [0x08, 0xff], [0x10, 0x81, 0x01]] :
          List (List Nat)).flatten) =
      ([⟨0x12, "DW_OP_dup", []⟩, ⟨0x08, "DW_OP_const1u", [255]⟩,
        ⟨0x10, "DW_OP_constu", [129]⟩], .done) ∧
     ([⟨0x12, "DW_OP_dup", []⟩, ⟨0x08, "DW_OP_const1u", [255]⟩,
       ⟨0x10, "DW_OP_constu", [129]⟩] : List Event).length =
       ([[0x12], [0x08, 0xff], [0x10, 0x81, 0x01]] : List (List Nat)).length ∧
     (([[0x12], [0x08, 0xff], [0x10, 0x81, 0x01]] :
        List (List Nat)).map List.length).sum =
       ([[0x12], [0x08, 0xff], [0x10, 0x81, 0x01]] : List (List Nat)).flatten.length ∧
     process_expr ⟨4⟩ idHooks (.fileStream []) = ([], .done)) :=
  ⟨rfl, by decide,
   process_expr_concat_instructions ⟨4⟩ idHooks _ _ rfl (by decide)⟩

/-- Claim C5: reading an opcode byte with no entry in the
code-to-name table raises the unknown-opcode error, which halts the
decode loop — the completion hook is invoked zero times for that byte
(only the hook invocations of the instructions before it occur). -/
theorem process_expr_unknown_opcode_halts (structs : DwarfStructs) (hooks : Hooks)
    (chunks : List (List Nat)) (evs : List Event) (b : Nat) (rest : List Nat)
    (hav : hooks.avRaises = false)
    (h : instrEvents structs chunks = some evs)
    (hb : dictGet natEq DW_OP_opcode2name b = none) :
    process_expr structs hooks (.fileStream (chunks.flatten ++ b :: rest)) =
      (evs, .err (.unknownOpcode b)) := by
  unfold process_expr
  simp only [exprStream]
  have hle := instrEvents_flatten_length structs chunks evs h
  obtain ⟨k, hk⟩ : ∃ k, (chunks.flatten ++ b :: rest).length + 1 =
      (chunks.length + 1) + k :=
    ⟨(chunks.flatten ++ b :: rest).length - chunks.length, by
      simp only [List.length_append, List.length_cons]
      omega⟩
  rw [hk]
  have hstep : processStep structs hooks
      { rem := b :: rest, cur_args := lastArgsOf evs [] } =
      .errStep (.unknownOpcode b) := by
    simp only [processStep, hb]
  have hjoin := processLoop_join structs hooks hav chunks evs (b :: rest) [] 1 h
  rw [processLoop_errStep structs hooks 0 _ _ hstep] at hjoin
  simp only [List.append_nil] at hjoin
  have hne : (processLoop structs hooks (chunks.length + 1)
      { rem := chunks.flatten ++ b :: rest, cur_args := [] }).2 ≠ .outOfFuel := by
    rw [hjoin]
    simp
  rw [processLoop_mono structs hooks (chunks.length + 1) _ hne k, hjoin]

/-- Witness for C5 at a concrete input: one valid `DW_OP_dup`
instruction followed by byte 0x00, which has no opcode-table entry. -/
theorem process_expr_unknown_opcode_halts_witness :
    idHooks.avRaises = false ∧
    instrEvents ⟨4⟩ [[0x12]] = some [⟨0x12, "DW_OP_dup", []⟩] ∧
    dictGet natEq DW_OP_opcode2name 0x00 = none ∧
    process_expr ⟨4⟩ idHooks
        (.fileStream (([[0x12]] : List (List Nat)).flatten ++ 0x00 :: [])) =
      ([⟨0x12, "DW_OP_dup", []⟩], .err (.unknownOpcode 0x00)) :=
  ⟨rfl, by decide, by decide,
   process_expr_unknown_opcode_halts ⟨4⟩ idHooks _ _ 0x00 [] rfl (by decide)
     (by decide)⟩

/-- Claim C7: `process_expr` behaves identically on its two accepted
input shapes — a positioned stream over some bytes and the same bytes
given as a list of byte values produce the same hook-invocation trace
and the same outcome (the list is wrapped into an equivalent
positioned-read view). -/
theorem process_expr_bytelist_equiv (structs : DwarfStructs) (hooks : Hooks)
    (l : List Nat) :
    process_expr structs hooks (.bytelist l) =
      process_expr structs hooks (.fileStream l) := rfl

/-- Claim C8: without concrete overrides, the base class's default
visitor always raises not-implemented, its completion hook raises
not-implemented, and consequently a decode of any defined opcode ends
in a raised error — not-implemented from one of the two hooks, or
operand-underrun raised by the codec before either hook could run —
never in silent completion. -/
theorem base_class_hooks_raise :
    (∀ (b : Nat) (nm : String) (s : EngineState),
      baseHooks.dv b nm s = .error .notImplemented) ∧
    baseHooks.avRaises = true ∧
    ∀ (structs : DwarfStructs) (b : Nat) (nm : String) (rest : List Nat),
      dictGet natEq DW_OP_opcode2name b = some nm →
      (process_expr structs baseHooks (.fileStream (b :: rest))).2 =
        .err .notImplemented ∨
      (process_expr structs baseHooks (.fileStream (b :: rest))).2 =
        .err .operandUnderrun := by
  refine ⟨fun b nm s => rfl, rfl, ?_⟩
  intro structs b nm rest hb
  unfold process_expr
  simp only [exprStream, List.length_cons]
  match hd : dictGet natEq _dispatch_table b with
  | some r =>
    match hr : runRule structs r { rem := rest, cur_args := [] } with
    | .ok s2 =>
      have hstep : processStep structs baseHooks
          { rem := b :: rest, cur_args := [] } =
          .step { opcode := b, opname := nm, args := s2.cur_args } s2 := by
        simp only [processStep, hb, hd, hr]
      rw [processLoop_step_raise structs baseHooks (rest.length + 1) _ _ _ hstep rfl]
      left
      rfl
    | .error e =>
      have he := runRule_error structs r _ e hr
      subst he
      have hstep : processStep structs baseHooks
          { rem := b :: rest, cur_args := [] } = .errStep .operandUnderrun := by
        simp only [processStep, hb, hd, hr]
      rw [processLoop_errStep structs baseHooks (rest.length + 1) _ _ hstep]
      right
      rfl
  | none =>
    have hstep : processStep structs baseHooks
        { rem := b :: rest, cur_args := [] } = .errStep .notImplemented := by
      simp only [processStep, hb, hd, baseHooks]
    rw [processLoop_errStep structs baseHooks (rest.length + 1) _ _ hstep]
    left
    rfl

/-- Witness for C8 at a concrete input: decoding the single defined
no-operand opcode `DW_OP_deref` (0x06) with the base class's hooks
raises not-implemented. -/
theorem base_class_hooks_raise_witness :
    dictGet natEq DW_OP_opcode2name 0x06 = some "DW_OP_deref" ∧
    ((process_expr ⟨4⟩ baseHooks (.fileStream [0x06])).2 = .err .notImplemented ∨
     (process_expr ⟨4⟩ baseHooks (.fileStream [0x06])).2 = .err .operandUnderrun) :=
  ⟨by decide, base_class_hooks_raise.2.2 ⟨4⟩ 0x06 "DW_OP_deref" [] (by decide)⟩

/-- Claim C9: for every finite input and any default visitor that only
advances the stream position (never rewinds past data it was given),
`process_expr` terminates: the fuelled loop never exhausts its fuel of
input-length-plus-one iterations, because every iteration consumes at
least the opcode byte. -/
theorem process_expr_terminates (structs : DwarfStructs) (hooks : Hooks)
    (expr : ExprInput)
    (hdv : ∀ (b : Nat) (nm : String) (s s2 : EngineState),
      hooks.dv b nm s = .ok s2 → s2.rem.length ≤ s.rem.length) :
    (process_expr structs hooks expr).2 ≠ .outOfFuel := by
  unfold process_expr
  exact processLoop_fuel structs hooks hdv ((exprStream expr).length + 1) _ (by simp)

/-- Witness for C9 at a concrete input (the identity default visitor
trivially only advances the position). -/
theorem process_expr_terminates_witness :
    (∀ (b : Nat) (nm : String) (s s2 : EngineState),
      idHooks.dv b nm s = .ok s2 → s2.rem.length ≤ s.rem.length) ∧
    (process_expr ⟨4⟩ idHooks (.fileStream [0x06, 0x08, 0x07])).2 ≠ .outOfFuel :=
  ⟨fun b nm s s2 h => by
      simp only [idHooks] at h
      injection h with h
      rw [h],
   process_expr_terminates ⟨4⟩ idHooks (.fileStream [0x06, 0x08, 0x07])
     (fun b nm s s2 h => by
       simp only [idHooks] at h
       injection h with h
       rw [h])⟩

/-- Claim C10: the engine never resets `_cur_args` between
instructions; only the specifically bound rules assign it.  If an
instruction's opcode has a name but no dispatch entry and the
(overridden) default visitor does not assign `_cur_args`, the
completion hook for that instruction receives the operand list left
over from the previously decoded instruction (or the initial empty
list when there is none). -/
theorem default_visit_stale_cur_args (structs : DwarfStructs)
    (chunks : List (List Nat)) (evs : List Event) (b : Nat) (nm : String)
    (h : instrEvents structs chunks = some evs)
    (hb : dictGet natEq DW_OP_opcode2name b = some nm)
    (hd : dictGet natEq _dispatch_table b = none) :
    process_expr structs idHooks (.fileStream (chunks.flatten ++ [b])) =
      (evs ++ [⟨b, nm, lastArgsOf evs []⟩], .done) := by
  unfold process_expr
  simp only [exprStream]
  have hle := instrEvents_flatten_length structs chunks evs h
  obtain ⟨k, hk⟩ : ∃ k, (chunks.flatten ++ [b]).length + 1 =
      (chunks.length + 2) + k :=
    ⟨(chunks.flatten ++ [b]).length - chunks.length - 1, by
      simp only [List.length_append, List.length_cons, List.length_nil]
      omega⟩
  rw [hk]
  have hstep : processStep structs idHooks
      { rem := [b], cur_args := lastArgsOf evs [] } =
      .step ⟨b, nm, lastArgsOf evs []⟩ { rem := [], cur_args := lastArgsOf evs [] } := by
    simp only [processStep, hb, hd, idHooks]
  have h2 : processLoop structs idHooks 2
      { rem := [b], cur_args := lastArgsOf evs [] } =
      ([⟨b, nm, lastArgsOf evs []⟩], .done) := by
    rw [processLoop_step_cont structs idHooks 1 _ _ _ hstep rfl,
        processLoop_nil structs idHooks 0 _]
  have hjoin := processLoop_join structs idHooks rfl chunks evs [b] [] 2 h
  rw [h2] at hjoin
  have hne : (processLoop structs idHooks (chunks.length + 2)
      { rem := chunks.flatten ++ [b], cur_args := [] }).2 ≠ .outOfFuel := by
    rw [hjoin]
    simp
  rw [processLoop_mono structs idHooks (chunks.length + 2) _ hne k, hjoin]

/-- Witness for C10 at a concrete input: after `DW_OP_const1u 7`
decodes with operand list `[7]`, the unmapped-but-named opcode
`DW_OP_regx` (0x90) is visited by the do-nothing default visitor and
its completion hook receives the stale operand list `[7]`. -/
theorem default_visit_stale_cur_args_witness :
    instrEvents ⟨4⟩ [[0x08, 0x07]] = some [⟨0x08, "DW_OP_const1u", [7]⟩] ∧
    dictGet natEq DW_OP_opcode2name 0x90 = some "DW_OP_regx" ∧
    dictGet natEq _dispatch_table 0x90 = none ∧
    process_expr ⟨4⟩ idHooks
        (.fileStream (([[0x08, 0x07]] : List (List Nat)).flatten ++ [0x90])) =
      ([⟨0x08, "DW_OP_const1u", [7]⟩, ⟨0x90, "DW_OP_regx", [7]⟩], .done) :=
  ⟨by decide, by decide, by decide,
   default_visit_stale_cur_args ⟨4⟩ [[0x08, 0x07]] [⟨0x08, "DW_OP_const1u", [7]⟩]
     0x90 "DW_OP_regx" (by decide) (by decide) (by decide)⟩
